import Mathlib

/-!
Verification development for the layout-aware PDF text-extraction core of
the repository (file rag-pipeline/data-engineering/main.py).

The Python source is shallowly embedded: page coordinates (Python floats
holding small decimal constants) are modelled as exact rationals, Python
lists as Lean lists, and Python strings as Lean strings manipulated through
their character lists.  Python's stable sort is modelled by a stable
insertion sort, str.strip / str.splitlines / str.join by explicit
character-list functions mirroring their documented semantics (restricted
to the ASCII whitespace and line-break repertoire, which is all the
pipeline produces).  Exceptions raised by the external OCR engine are
modelled by an Except value carried on the page.  Identity/metadata fields
of an output record that are environmental (doc_id, sha256 content hash,
timestamp, partition columns) are omitted from the record model; none of
the verified properties mention them.

Names ending in the letters I-O are avoided, so the *_RATIO constants of
the source appear here with the suffix FRAC.
-/

/- The Batteries rational-arithmetic primitives are irreducible by
default, which stops `decide`-style evaluation of concrete pages; they
are perfectly computable, so make them reducible for this development. -/
attribute [local semireducible] Rat.add Rat.sub Rat.mul Rat.inv Rat.ofScientific

namespace PdfExtract

/-! ### Tunables (module-level constants of main.py, at their defaults) -/

def MIN_TEXT_LEN : Nat := 60

def MAX_OCR_PAGES : Nat := 20

/-- 0.12 : minimum winning gap as a fraction of page width. -/
def MIN_GAP_FRAC : ℚ := 12 / 100

/-- 0.15 : outer margin fraction inside which a gutter mid is rejected. -/
def EDGE_MARGIN_FRAC : ℚ := 15 / 100

def MIN_BLOCKS_PER_COLUMN : Nat := 4

/-- (0.35, 0.65) : required central band for the gutter mid. -/
def GUTTER_MID_BAND : ℚ × ℚ := (35 / 100, 65 / 100)

/-- 0.08 : fraction of items trimmed from top and bottom in gutter search. -/
def TRIM_TOP_BOTTOM_FRAC : ℚ := 8 / 100

/-- 2.0 : row grouping tolerance in page units. -/
def Y_TOL : ℚ := 2

def APPLY_ENUMERATOR_CLEAN : Bool := true

/-! ### Text fragments (_collect_items_dict output items) -/

/-- One positioned line of text as collected by `_collect_items_dict`:
`{"bidx": b_idx, "y": y0, "x": x0, "x1": x1, "text": txt}`.  The source
stores `x1` from the line bbox; `_items_to_columns` guards against a
missing/non-numeric `x1`, so it is modelled as an `Option`. -/
structure Item where
  bidx : Nat
  y : ℚ
  x : ℚ
  x1 : Option ℚ
  text : String
deriving Repr, DecidableEq

/-- Horizontal center used by `_items_to_columns`:
`0.5 * (x0 + x1)` when `x1` is numeric, else `x0`. -/
def centerOf (it : Item) : ℚ :=
  match it.x1 with
  | some v => (1 / 2) * (it.x + v)
  | none => it.x

/-! ### Python's stable sort (sorted with a key) -/

/-- Stable insertion: place `x` before the first element `y` with
`le x y`.  With `le a b = (key a ≤ key b)` this reproduces the result of
Python's stable `sorted(..., key=...)`. -/
def pyInsert (le : α → α → Bool) (x : α) : List α → List α
  | [] => [x]
  | y :: ys => if le x y then x :: y :: ys else y :: pyInsert le x ys

def pySort (le : α → α → Bool) : List α → List α
  | [] => []
  | x :: xs => pyInsert le x (pySort le xs)

def sortQ (l : List ℚ) : List ℚ :=
  pySort (fun a b => decide (a ≤ b)) l

/-! ### Column splitter (_items_to_columns) -/

/-- `need = max(4, 2 * MIN_BLOCKS_PER_COLUMN)`. -/
def needBlocks : Nat := max 4 (2 * MIN_BLOCKS_PER_COLUMN)

/-- Largest-gap scan over the sorted center list: for each adjacent pair
the gap is compared strictly against the running maximum (initially 0.0
with no mid), so the first maximal gap wins and `mid` stays `none` when
every gap is zero.  Mirrors the `for i in range(len(centers) - 1)` loop. -/
def gapScan (maxGap : ℚ) (mid : Option ℚ) : List ℚ → ℚ × Option ℚ
  | [] => (maxGap, mid)
  | a :: rest =>
    match rest with
    | [] => (maxGap, mid)
    | b :: _ =>
      if maxGap < b - a then gapScan (b - a) (some ((1 / 2) * (b + a))) rest
      else gapScan maxGap mid rest

/-- Top/bottom trimming step of `_items_to_columns`: sort the `y`
coordinates, compute `k = int(len(ys) * TRIM_TOP_BOTTOM_RATIO)`, take
`y_lo = ys[k] if k < len(ys) else ys[0]` and
`y_hi = ys[-k-1] if k > 0 else ys[-1]`, keep the items inside the band,
and fall back to the full item list when fewer than `need` survive. -/
def trimmedWork (items : List Item) : List Item :=
  match sortQ (items.map (fun it => it.y)) with
  | [] => items
  | y0 :: ytl =>
    let ys := y0 :: ytl
    let k := Int.toNat ⌊(ys.length : ℚ) * TRIM_TOP_BOTTOM_FRAC⌋
    let yLo := ys.getD k y0
    let yHi := if 0 < k then ys.getD (ys.length - k - 1) y0 else ys.getD (ys.length - 1) y0
    let trimmed := items.filter (fun it => decide (yLo ≤ it.y) && decide (it.y ≤ yHi))
    if needBlocks ≤ trimmed.length then trimmed else items

/-- Sorted-center gap scan applied to a working set of items. -/
def gutterScan (work : List Item) : ℚ × Option ℚ :=
  gapScan 0 none (sortQ (work.map centerOf))

/-- `_items_to_columns(items, page_width)`.  Returns
`(left, right, some mid)` on a split and `(items, [], none)` otherwise. -/
def itemsToColumns (items : List Item) (pageWidth : ℚ) :
    List Item × List Item × Option ℚ :=
  if items.length < needBlocks then (items, [], none)
  else if ((trimmedWork items).map centerOf).length < needBlocks then (items, [], none)
  else
    match gutterScan (trimmedWork items) with
    | (_, none) => (items, [], none)
    | (maxGap, some mid) =>
      if ¬ (EDGE_MARGIN_FRAC * pageWidth < mid ∧ mid < (1 - EDGE_MARGIN_FRAC) * pageWidth) then
        (items, [], none)
      else if ¬ (GUTTER_MID_BAND.1 * pageWidth ≤ mid ∧ mid ≤ GUTTER_MID_BAND.2 * pageWidth) then
        (items, [], none)
      else if maxGap < MIN_GAP_FRAC * pageWidth then (items, [], none)
      else if (items.filter (fun it => decide (centerOf it ≤ mid))).length < MIN_BLOCKS_PER_COLUMN
              ∨ (items.filter (fun it => !decide (centerOf it ≤ mid))).length < MIN_BLOCKS_PER_COLUMN then
        (items, [], none)
      else
        (items.filter (fun it => decide (centerOf it ≤ mid)),
         items.filter (fun it => !decide (centerOf it ≤ mid)),
         some mid)

/-! ### Python string primitives used by the pipeline -/

/-- ASCII whitespace stripped by Python's `str.strip()` (the pipeline only
ever produces ASCII whitespace). -/
def wsChar (c : Char) : Bool :=
  c = ' ' || c = '\t' || c = '\n' || c = '\r' || c = '\x0b' || c = '\x0c'

/-- `str.strip()`. -/
def pyStrip (s : String) : String :=
  String.mk (((s.data.dropWhile wsChar).reverse.dropWhile wsChar).reverse)

/-- Line-break characters recognised by Python's `str.splitlines()`. -/
def isLineBreakChar (c : Char) : Bool :=
  c = '\n' || c = '\r' || c = '\x0b' || c = '\x0c' ||
  c = '\x1c' || c = '\x1d' || c = '\x1e' || c = '\x85' ||
  c = '\u2028' || c = '\u2029'

/-- Prepend a non-break character to the first line of an already split
tail (opening that line when the tail has none). -/
def consLine (c : Char) : List String → List String
  | [] => [String.mk [c]]
  | l :: ls => String.mk (c :: l.data) :: ls

/-- `str.splitlines()` over the character list: a line break ends the
current line ("\r\n" counting as a single break), and a trailing break
does not open a final empty line. -/
def splitlinesCh : List Char → List String
  | [] => []
  | [c] => if isLineBreakChar c then [""] else [String.mk [c]]
  | c :: c2 :: cs =>
    if c = '\r' ∧ c2 = '\n' then "" :: splitlinesCh cs
    else if isLineBreakChar c then "" :: splitlinesCh (c2 :: cs)
    else consLine c (splitlinesCh (c2 :: cs))

def pySplitlines (s : String) : List String :=
  splitlinesCh s.data

/-- `sep.join(parts)`. -/
def pyJoin (sep : String) : List String → String
  | [] => ""
  | l :: ls =>
    match ls with
    | [] => l
    | _ :: _ => l ++ sep ++ pyJoin sep ls

/-- Sequential `replace("\r\n", "\n").replace("\r", "\n")`: every CRLF
pair collapses to a single LF and every remaining CR becomes LF. -/
def normNl : List Char → List Char
  | [] => []
  | '\r' :: '\n' :: cs => '\n' :: normNl cs
  | c :: cs => (if c = '\r' then '\n' else c) :: normNl cs

/-! ### Orphan enumerator cleaner (remove_orphan_enumerators) -/

def isAsciiLetter (c : Char) : Bool :=
  ('a' ≤ c && c ≤ 'z') || ('A' ≤ c && c ≤ 'Z')

/-- Characters of the roman-numeral alternatives `[ivxlcdm]` under
`re.IGNORECASE`. -/
def isRomanChar (c : Char) : Bool :=
  c = 'i' || c = 'v' || c = 'x' || c = 'l' || c = 'c' || c = 'd' || c = 'm' ||
  c = 'I' || c = 'V' || c = 'X' || c = 'L' || c = 'C' || c = 'D' || c = 'M'

/-- One or more characters satisfying `p` followed by a final dot
(the regex fragments like `\d+\.`). -/
def dotMarker (p : Char → Bool) (t : List Char) : Bool :=
  t.getLast? == some '.' && !t.dropLast.isEmpty && t.dropLast.all p

/-- A parenthesised run of characters satisfying `p`, with between `lo`
and `hi` of them (the regex fragments like `\([0-9]{1,3}\)`). -/
def parenMarker (p : Char → Bool) (lo hi : Nat) (t : List Char) : Bool :=
  match t with
  | '(' :: rest =>
    rest.getLast? == some ')' && rest.dropLast.all p &&
    decide (lo ≤ rest.dropLast.length) && decide (rest.dropLast.length ≤ hi)
  | _ => false

/-- `_BARE_ENUM_RE.match(s.strip())`: the stripped line is exactly one of
`[A-Z]\.` (one letter, either case), `\([A-Za-z]\)`, `\d+\.`,
`\([0-9]{1,3}\)`, `[ivxlcdm]+\.` or `\([ivxlcdm]+\)`. -/
def isBareEnum (s : String) : Bool :=
  let t := (pyStrip s).data
  (decide (t.length = 2) && dotMarker isAsciiLetter t) ||
  parenMarker isAsciiLetter 1 1 t ||
  dotMarker Char.isDigit t ||
  parenMarker Char.isDigit 1 3 t ||
  dotMarker isRomanChar t ||
  parenMarker isRomanChar 1 t.length t

/-- First line (in order) whose stripped form is non-empty; the value the
`next_nonempty` index scan of `remove_orphan_enumerators` looks at. -/
def firstNonempty : List String → Option String
  | [] => none
  | l :: ls => if pyStrip l = "" then firstNonempty ls else some l

/-- The per-line scan of `remove_orphan_enumerators`: a bare-enumerator
line is dropped when the next non-empty line is also bare or absent;
every other line is kept.  The source's `while i < n` loop advances `i`
by one on every iteration, which this structural recursion mirrors. -/
def cleanLines : List String → List String
  | [] => []
  | l :: rest =>
    if isBareEnum l then
      match firstNonempty rest with
      | none => cleanLines rest
      | some nxt => if isBareEnum nxt then cleanLines rest else l :: cleanLines rest
    else l :: cleanLines rest

/-- `remove_orphan_enumerators(text)`. -/
def removeOrphanEnumerators (text : String) : String :=
  pyJoin "\n" (cleanLines (pySplitlines text))

/-! ### Row assembler (_sort_items) -/

/-- Python `round(q, 2)`: round to a multiple of 1/100, ties to even. -/
def pyRound2 (q : ℚ) : ℚ :=
  let r := q * 100
  let f := ⌊r⌋
  let n := if r - f < 1 / 2 then f else if 1 / 2 < r - f then f + 1
           else if f % 2 = 0 then f else f + 1
  (n : ℚ) / 100

/-- In-row comparison key `(round(z["x"], 2), z["bidx"])`, as a stable
less-or-equal test. -/
def rowKeyLe (u v : Item) : Bool :=
  decide (pyRound2 u.x < pyRound2 v.x ∨ (pyRound2 u.x = pyRound2 v.x ∧ u.bidx ≤ v.bidx))

/-- `cur.sort(key=lambda z: (round(z["x"], 2), z["bidx"]))`. -/
def sortRow (cur : List Item) : List Item :=
  pySort rowKeyLe cur

/-- The row-grouping loop of `_sort_items`: `lastY` is the running row
value (`None` before the first item), `cur` the open row, `rows` the
finished rows.  An item joins the open row when `abs(y - last_y) <= Y_TOL`
and the running value becomes `(last_y + y) / 2`; otherwise the open row
is closed (sorted by `rowKeyLe`) and a new row starts at `y`. -/
def rowsLoop (lastY : Option ℚ) (cur : List Item) (rows : List (List Item)) :
    List Item → List (List Item)
  | [] => if cur.isEmpty then rows else rows ++ [sortRow cur]
  | it :: rest =>
    match lastY with
    | none => rowsLoop (some it.y) (cur ++ [it]) rows rest
    | some ly =>
      if |it.y - ly| ≤ Y_TOL then
        rowsLoop (some ((ly + it.y) / 2)) (cur ++ [it]) rows rest
      else
        rowsLoop (some it.y) [it] (rows ++ [sortRow cur]) rest

/-- `_sort_items(items)`: stable sort by `y`, group into rows, sort each
row, and flatten. -/
def sortItems (items : List Item) : List Item :=
  if items.isEmpty then []
  else (rowsLoop none [] [] (pySort (fun u v => decide (u.y ≤ v.y)) items)).flatten

/-! ### Page assembly (page_text_layout) and OCR (ocr_page_to_text) -/

instance : DecidableEq (Except Unit String) := fun a b =>
  match a, b with
  | Except.error u, Except.error v =>
    if h : u = v then isTrue (by rw [h]) else isFalse (by intro hc; cases hc; exact h rfl)
  | Except.ok s, Except.ok t =>
    if h : s = t then isTrue (by rw [h]) else isFalse (by intro hc; cases hc; exact h rfl)
  | Except.error _, Except.ok _ => isFalse (by intro hc; cases hc)
  | Except.ok _, Except.error _ => isFalse (by intro hc; cases hc)

/-- A page as the core consumes it: the collected fragments, the page
width, and the outcome the external OCR engine would produce for it
(`Except.error` models a raised engine error/timeout). -/
structure PageData where
  items : List Item
  width : ℚ
  ocrResult : Except Unit String
deriving Repr, DecidableEq

/-- `ocr_page_to_text`: a recognition failure (`RuntimeError`, which
includes pytesseract timeouts) yields `""`; otherwise the engine text is
newline-normalised and stripped. -/
def ocrPageToText (p : PageData) : String :=
  match p.ocrResult with
  | Except.error _ => ""
  | Except.ok t => pyStrip (String.mk (normNl t.data))

/-- `join_items(its)` inside `page_text_layout`:
`"\n".join(it["text"] for it in _sort_items(its) if it["text"].strip())`. -/
def joinItems (its : List Item) : String :=
  pyJoin "\n" (((sortItems its).filter (fun it => !(pyStrip it.text == ""))).map
    (fun it => it.text))

/-- `page_text_layout(page)`. -/
def pageTextLayout (p : PageData) : String :=
  if p.items.isEmpty then ""
  else
    match itemsToColumns p.items p.width with
    | (_, _, none) => pyStrip (joinItems p.items)
    | (left, right, some _) =>
      pyStrip (pyJoin "\n\n" (([joinItems left, joinItems right]).filter (fun s => !(s == ""))))

/-! ### Per-page OCR fallback and record assembly (extract_pdf_to_records) -/

/-- Result of the OCR-fallback block for one page: the (possibly
replaced) text, the `is_ocr` flag, the updated document OCR counter, and
whether `ocr_page_to_text` was invoked at all. -/
structure OcrOutcome where
  text : String
  is_ocr : Bool
  ocr_used : Nat
  attempted : Bool
deriving Repr, DecidableEq

/-- Lines 294-306 of main.py: `needs_ocr` requires OCR enabled, stripped
text below `MIN_TEXT_LEN` and the counter below `MAX_OCR_PAGES`; the
engine is then invoked only when the page has at most two raw fragments,
and its text replaces the original only when strictly longer after
stripping (incrementing the counter and setting `is_ocr`). -/
def ocrStage (allowOcr : Bool) (ocrUsed : Nat) (p : PageData) (txt : String) : OcrOutcome :=
  if allowOcr = true ∧ (pyStrip txt).length < MIN_TEXT_LEN ∧ ocrUsed < MAX_OCR_PAGES then
    if p.items.length ≤ 2 then
      if (pyStrip txt).length < (pyStrip (ocrPageToText p)).length then
        ⟨ocrPageToText p, true, ocrUsed + 1, true⟩
      else ⟨txt, false, ocrUsed, true⟩
    else ⟨txt, false, ocrUsed, false⟩
  else ⟨txt, false, ocrUsed, false⟩

/-- The fields of an output row that the core computes per page
(environmental identity/metadata fields omitted). -/
structure PageRecord where
  page : Nat
  text : String
  is_ocr : Bool
  char_len : Nat
deriving Repr, DecidableEq

/-- One iteration of the page loop of `extract_pdf_to_records`: assemble
the layout text, run the OCR fallback block, apply the enumerator cleaner
to non-empty text, and build the record.  Returns the record and the
updated OCR counter. -/
def processPage (allowOcr : Bool) (ocrUsed : Nat) (pageNum : Nat) (p : PageData) :
    PageRecord × Nat :=
  let o := ocrStage allowOcr ocrUsed p (pageTextLayout p)
  let txt := if APPLY_ENUMERATOR_CLEAN && !(o.text == "") then removeOrphanEnumerators o.text
             else o.text
  ({ page := pageNum, text := txt, is_ocr := o.is_ocr, char_len := txt.length }, o.ocr_used)

/-- The page loop, threading the document OCR counter and 1-based page
numbers. -/
def extractPages (allowOcr : Bool) (ocrUsed : Nat) (pageNum : Nat) :
    List PageData → List PageRecord
  | [] => []
  | p :: ps =>
    (processPage allowOcr ocrUsed pageNum p).1 ::
      extractPages allowOcr (processPage allowOcr ocrUsed pageNum p).2 (pageNum + 1) ps

/-- `extract_pdf_to_records`, restricted to its per-page computation:
`ocr_used` starts at 0 and pages are numbered from 1. -/
def extractPdfToRecords (allowOcr : Bool) (pages : List PageData) : List PageRecord :=
  extractPages allowOcr 0 1 pages

/-! ### Concrete inputs used by witnesses and counterexamples -/

/-- A fragment whose center is exactly `c` (both bbox ends at `c`). -/
def mkIt (b : Nat) (c y : ℚ) : Item :=
  { bidx := b, y := y, x := c, x1 := some c, text := "t" }

/-- Eight fragments in two well-separated clusters (centers 100 and 400
on a width-500 page): the gutter mid 250 sits in every allowed band. -/
def splitPage8 : List Item :=
  [mkIt 0 100 100, mkIt 1 100 100, mkIt 2 100 100, mkIt 3 100 100,
   mkIt 4 400 100, mkIt 5 400 100, mkIt 6 400 100, mkIt 7 400 100]

/-- Seven fragments: one below the `max(4, 2 * MIN_BLOCKS_PER_COLUMN)`
minimum. -/
def sevenItems : List Item :=
  [mkIt 0 100 100, mkIt 1 100 100, mkIt 2 100 100, mkIt 3 100 100,
   mkIt 4 400 100, mkIt 5 400 100, mkIt 6 400 100]

/-- Eight fragments whose largest gap (150 ≥ 0.12 * 500) is centered at
100 = 20% of the width-500 page: outside the 35%-65% band. -/
def offBandItems : List Item :=
  [mkIt 0 25 100, mkIt 1 25 100, mkIt 2 25 100, mkIt 3 25 100,
   mkIt 4 175 100, mkIt 5 175 100, mkIt 6 175 100, mkIt 7 175 100]

/-- Two fragments whose `y0` differ by exactly `Y_TOL`. -/
def itemRowA : Item := mkIt 0 10 0

def itemRowB : Item := mkIt 1 20 2

/-- An empty page whose OCR engine succeeds with text "hello". -/
def pageHello : PageData :=
  { items := [], width := 500, ocrResult := Except.ok "hello" }

/-- An empty page whose OCR engine raises. -/
def pageRaise : PageData :=
  { items := [], width := 500, ocrResult := Except.error () }

/-- A page with a healthy embedded text layer (a single long fragment)
and a raising OCR engine. -/
def pageLongText : PageData :=
  { items := [{ bidx := 0, y := 10, x := 5, x1 := some 400,
                text := "0123456789012345678901234567890123456789012345678901234567890123" }],
    width := 500, ocrResult := Except.error () }

/-- A line of 64 characters: stripped length well above `MIN_TEXT_LEN`. -/
def longLine : String :=
  "0123456789012345678901234567890123456789012345678901234567890123"

/-! ## Theorems -/

/-- C1: a page with fewer than `max(4, 2 * MIN_BLOCKS_PER_COLUMN)`
fragments (8 at the defaults) is never split and comes back as a single
group, while the eight-fragment page `splitPage8`, whose two clusters
satisfy every band and gap constraint, is split. -/
theorem colsplit_fragment_minimum :
    (∀ (items : List Item) (w : ℚ),
      items.length < max 4 (2 * MIN_BLOCKS_PER_COLUMN) →
      itemsToColumns items w = (items, [], none)) ∧
    splitPage8.length = 2 * MIN_BLOCKS_PER_COLUMN ∧
    (itemsToColumns splitPage8 500).2.2 = some 250 := by
  refine ⟨?_, by decide, by decide⟩
  intro items w h
  have h' : items.length < needBlocks := h
  unfold itemsToColumns
  rw [if_pos h']

/-- Closed instance of `colsplit_fragment_minimum` on a seven-fragment
page. -/
theorem colsplit_fragment_minimum_witness :
    itemsToColumns sevenItems 500 = (sevenItems, [], none) :=
  colsplit_fragment_minimum.1 sevenItems 500 (by decide)

/-- C2: whenever the gutter candidate fails any interior check — mid
outside the `GUTTER_MID_BAND`, mid not strictly inside the
`EDGE_MARGIN_FRAC` margins, or winning gap below `MIN_GAP_FRAC` of the
page width — `_items_to_columns` declares no-split and returns all
fragments as a single group. -/
theorem colsplit_band_gap_rejection (items : List Item) (w mg m : ℚ)
    (hscan : gutterScan (trimmedWork items) = (mg, some m))
    (hfail : ¬ (GUTTER_MID_BAND.1 * w ≤ m ∧ m ≤ GUTTER_MID_BAND.2 * w) ∨
             ¬ (EDGE_MARGIN_FRAC * w < m ∧ m < (1 - EDGE_MARGIN_FRAC) * w) ∨
             mg < MIN_GAP_FRAC * w) :
    itemsToColumns items w = (items, [], none) := by
  unfold itemsToColumns
  by_cases h1 : items.length < needBlocks
  · rw [if_pos h1]
  · rw [if_neg h1]
    by_cases h2 : ((trimmedWork items).map centerOf).length < needBlocks
    · rw [if_pos h2]
    · rw [if_neg h2, hscan]
      dsimp only
      split_ifs with he hb hg hp <;>
        first
        | rfl
        | (exfalso
           rcases hfail with hf | hf | hf
           · exact hf hb
           · exact hf he
           · exact hg hf)

/-- Closed instance of `colsplit_band_gap_rejection`: a winning gap of
150 (≥ 0.12 * 500) centered at 20% of a width-500 page is rejected. -/
theorem colsplit_band_gap_rejection_witness :
    itemsToColumns offBandItems 500 = (offBandItems, [], none) :=
  colsplit_band_gap_rejection offBandItems 500 150 100 (by decide) (Or.inl (by decide))

/-- C4: on a page where OCR is attempted, the OCR text replaces the
assembled text (with `is_ocr` set and the counter bumped) exactly when
its stripped length strictly exceeds the original's; otherwise the
original text is kept and `is_ocr` stays false. -/
theorem ocr_replacement_rule (allow : Bool) (used : Nat) (p : PageData) (txt : String)
    (h1 : allow = true) (h2 : (pyStrip txt).length < MIN_TEXT_LEN)
    (h3 : used < MAX_OCR_PAGES) (h4 : p.items.length ≤ 2) :
    ocrStage allow used p txt =
      if (pyStrip txt).length < (pyStrip (ocrPageToText p)).length then
        { text := ocrPageToText p, is_ocr := true, ocr_used := used + 1, attempted := true }
      else
        { text := txt, is_ocr := false, ocr_used := used, attempted := true } := by
  unfold ocrStage
  rw [if_pos ⟨h1, h2, h3⟩, if_pos h4]

/-- Closed instance of `ocr_replacement_rule`: original stripped length 2
against OCR text "hello" of stripped length 5 replaces. -/
theorem ocr_replacement_rule_witness :
    ocrStage true 0 pageHello "ab" =
      { text := "hello", is_ocr := true, ocr_used := 1, attempted := true } := by
  rw [ocr_replacement_rule true 0 pageHello "ab" rfl (by decide) (by decide) (by decide)]
  decide

/-- C5: the OCR engine is invoked on a page exactly when OCR is enabled,
the assembled text's stripped length is below `MIN_TEXT_LEN`, the
document counter is below `MAX_OCR_PAGES`, and the page has at most two
raw fragments; in particular a page with stripped length at least
`MIN_TEXT_LEN` never invokes OCR. -/
theorem ocr_trigger_conditions (allow : Bool) (used : Nat) (p : PageData) (txt : String) :
    ((ocrStage allow used p txt).attempted = true ↔
      (allow = true ∧ (pyStrip txt).length < MIN_TEXT_LEN ∧ used < MAX_OCR_PAGES ∧
       p.items.length ≤ 2)) ∧
    (MIN_TEXT_LEN ≤ (pyStrip txt).length →
      (ocrStage allow used p txt).attempted = false) := by
  constructor
  · unfold ocrStage
    split_ifs with h1 h2 h3 <;> simp_all
  · intro h
    unfold ocrStage
    split_ifs with h1 h2 h3 <;> first | rfl | omega

/-- Closed instance of `ocr_trigger_conditions`: a page whose assembled
text has stripped length 64 never triggers OCR. -/
theorem ocr_trigger_conditions_witness :
    (ocrStage true 0 pageHello longLine).attempted = false :=
  (ocr_trigger_conditions true 0 pageHello longLine).2 (by decide)

/-- C7: a raising OCR engine produces empty OCR text, and the page then
keeps its original assembled text with `is_ocr` false and the counter
unchanged — the failure never propagates out of the page. -/
theorem ocr_error_swallowed (p : PageData) (h : p.ocrResult = Except.error ()) :
    ocrPageToText p = "" ∧
    ∀ (allow : Bool) (used : Nat) (txt : String),
      (ocrStage allow used p txt).text = txt ∧
      (ocrStage allow used p txt).is_ocr = false ∧
      (ocrStage allow used p txt).ocr_used = used := by
  have h0 : ocrPageToText p = "" := by unfold ocrPageToText; rw [h]
  refine ⟨h0, ?_⟩
  intro allow used txt
  have hz : (pyStrip (ocrPageToText p)).length = 0 := by rw [h0]; rfl
  unfold ocrStage
  split_ifs with h1 h2 h3
  · exact absurd h3 (by omega)
  · exact ⟨rfl, rfl, rfl⟩
  · exact ⟨rfl, rfl, rfl⟩
  · exact ⟨rfl, rfl, rfl⟩

/-- Closed instance of `ocr_error_swallowed` on `pageRaise`. -/
theorem ocr_error_swallowed_witness :
    ocrPageToText pageRaise = "" ∧ (ocrStage true 0 pageRaise "ab").text = "ab" :=
  ⟨(ocr_error_swallowed pageRaise rfl).1,
   ((ocr_error_swallowed pageRaise rfl).2 true 0 "ab").1⟩

/-- C3: in the row assembler, after the `y`-sort, a second fragment joins
the first's row exactly when the two `y0` values are within `Y_TOL`
(boundary included), and starts a new row when they differ by more; in
the same-row case both fragments are emitted through the in-row sort. -/
theorem row_grouping_tolerance (a b : Item) (hy : a.y ≤ b.y) :
    (b.y - a.y ≤ Y_TOL → sortItems [a, b] = sortRow [a, b]) ∧
    (Y_TOL < b.y - a.y → sortItems [a, b] = [a, b]) := by
  have habs : |b.y - a.y| = b.y - a.y := abs_of_nonneg (sub_nonneg.mpr hy)
  constructor
  · intro h
    simp [sortItems, pySort, pyInsert, rowsLoop, hy, habs, h]
  · intro h
    have hnot : ¬ (b.y - a.y ≤ Y_TOL) := not_le.mpr h
    simp [sortItems, pySort, pyInsert, rowsLoop, hy, habs, hnot, sortRow]

/-- Closed instance of `row_grouping_tolerance`: two fragments whose `y0`
differ by exactly `Y_TOL = 2` land in the same row. -/
theorem row_grouping_tolerance_witness :
    sortItems [itemRowA, itemRowB] = sortRow [itemRowA, itemRowB] :=
  (row_grouping_tolerance itemRowA itemRowB (by decide)).1 (by decide)

/-- C6: the cleaner drops a line exactly when it is a bare enumerator
whose next non-empty line is also bare or absent, keeping every other
line; on the spec's example only the line "A." is removed. -/
theorem orphan_cleaner_rule :
    (∀ (l : String) (rest : List String),
      cleanLines (l :: rest) =
        if (isBareEnum l &&
            (match firstNonempty rest with
             | none => true
             | some nxt => isBareEnum nxt)) = true
        then cleanLines rest
        else l :: cleanLines rest) ∧
    removeOrphanEnumerators "A.\n\n(1)\ncontent\nB.\nend" = "\n(1)\ncontent\nB.\nend" := by
  refine ⟨?_, by decide⟩
  intro l rest
  rw [cleanLines]
  cases hb : isBareEnum l with
  | false => simp [hb]
  | true =>
    cases hf : firstNonempty rest with
    | none => simp [hb, hf]
    | some nxt => cases hn : isBareEnum nxt <;> simp [hb, hf, hn]

/-- The OCR counter returned by the fallback block is the old counter
plus one exactly on replacement, and replacement requires the counter to
have been below `MAX_OCR_PAGES`. -/
theorem ocrStage_counter (allow : Bool) (used : Nat) (p : PageData) (txt : String) :
    (ocrStage allow used p txt).ocr_used =
      (if (ocrStage allow used p txt).is_ocr then used + 1 else used) ∧
    ((ocrStage allow used p txt).is_ocr = true → used < MAX_OCR_PAGES) := by
  unfold ocrStage
  split_ifs with h1 h2 h3 <;> simp_all

theorem processPage_counter_eq (allow : Bool) (used pn : Nat) (p : PageData) :
    (processPage allow used pn p).2 =
      (ocrStage allow used p (pageTextLayout p)).ocr_used := rfl

theorem processPage_is_ocr_eq (allow : Bool) (used pn : Nat) (p : PageData) :
    (processPage allow used pn p).1.is_ocr =
      (ocrStage allow used p (pageTextLayout p)).is_ocr := rfl

/-- Counter invariant threaded through the page loop: the initial counter
plus the number of OCR pages produced never exceeds
`max used MAX_OCR_PAGES`. -/
theorem extractPages_ocr_count (allow : Bool) :
    ∀ (ps : List PageData) (used pn : Nat),
      used + (extractPages allow used pn ps).countP (fun r => r.is_ocr) ≤
        max used MAX_OCR_PAGES := by
  intro ps
  induction ps with
  | nil =>
    intro used pn
    simp [extractPages]
  | cons p ps ih =>
    intro used pn
    rw [extractPages, List.countP_cons]
    have hctr : (processPage allow used pn p).2 =
        (if (processPage allow used pn p).1.is_ocr then used + 1 else used) := by
      rw [processPage_counter_eq, (ocrStage_counter allow used p (pageTextLayout p)).1,
          processPage_is_ocr_eq]
    have hih := ih ((processPage allow used pn p).2) (pn + 1)
    by_cases ho : (processPage allow used pn p).1.is_ocr = true
    · have hlt : used < MAX_OCR_PAGES := by
        apply (ocrStage_counter allow used p (pageTextLayout p)).2
        rw [← processPage_is_ocr_eq allow used pn p]
        exact ho
      simp only [ho, if_true] at hctr
      rw [hctr] at hih
      rw [hctr, if_pos ho]
      have h2 : max (used + 1) MAX_OCR_PAGES = MAX_OCR_PAGES := Nat.max_eq_right hlt
      have h3 : max used MAX_OCR_PAGES = MAX_OCR_PAGES :=
        Nat.max_eq_right (Nat.le_of_lt hlt)
      rw [h2] at hih
      rw [h3]
      omega
    · have hctr2 : (processPage allow used pn p).2 = used := by
        rw [hctr, if_neg ho]
      rw [hctr2] at hih
      rw [hctr2, if_neg ho]
      omega

/-- C8: the per-document OCR counter changes only at the fallback trigger
— it is bumped by one exactly on a page whose record gets `is_ocr` and is
otherwise unchanged (hence monotone) — and consequently a document never
produces more than `MAX_OCR_PAGES` records with `is_ocr = true`. -/
theorem ocr_counter_invariant :
    (∀ (allow : Bool) (used pn : Nat) (p : PageData),
      used ≤ (processPage allow used pn p).2 ∧
      (processPage allow used pn p).2 =
        (if (processPage allow used pn p).1.is_ocr then used + 1 else used)) ∧
    (∀ (allow : Bool) (pages : List PageData),
      (extractPdfToRecords allow pages).countP (fun r => r.is_ocr) ≤ MAX_OCR_PAGES) := by
  constructor
  · intro allow used pn p
    have h := (ocrStage_counter allow used p (pageTextLayout p)).1
    have heq : (processPage allow used pn p).2 =
        (if (processPage allow used pn p).1.is_ocr then used + 1 else used) := by
      rw [processPage_counter_eq, h, processPage_is_ocr_eq]
    refine ⟨?_, heq⟩
    rw [heq]
    split <;> omega
  · intro allow pages
    have h := extractPages_ocr_count allow pages 0 1
    have hmax : max 0 MAX_OCR_PAGES = MAX_OCR_PAGES := Nat.max_eq_right (Nat.zero_le _)
    rw [hmax] at h
    simpa [extractPdfToRecords] using h

theorem extractPages_length (allow : Bool) :
    ∀ (ps : List PageData) (used pn : Nat),
      (extractPages allow used pn ps).length = ps.length := by
  intro ps
  induction ps with
  | nil => intro used pn; rfl
  | cons p ps ih =>
    intro used pn
    rw [extractPages]
    simp [ih]

theorem processPage_page_eq (allow : Bool) (used pn : Nat) (p : PageData) :
    (processPage allow used pn p).1.page = pn := rfl

theorem extractPages_page_numbers (allow : Bool) :
    ∀ (ps : List PageData) (used pn : Nat),
      (extractPages allow used pn ps).map (fun r => r.page) = List.range' pn ps.length := by
  intro ps
  induction ps with
  | nil => intro used pn; rfl
  | cons p ps ih =>
    intro used pn
    rw [extractPages]
    simp [List.range', ih, processPage_page_eq]

theorem extractPages_char_len (allow : Bool) :
    ∀ (ps : List PageData) (used pn : Nat) (r : PageRecord),
      r ∈ extractPages allow used pn ps → r.char_len = r.text.length := by
  intro ps
  induction ps with
  | nil => intro used pn r h; simp [extractPages] at h
  | cons p ps ih =>
    intro used pn r h
    rw [extractPages] at h
    rcases List.mem_cons.mp h with h | h
    · subst h; rfl
    · exact ih _ _ r h

/-- C9: extraction emits exactly one record per page — the record list
has the same length as the page list, with pages numbered 1..n in order —
and every record satisfies `char_len = text.length`. -/
theorem one_record_per_page (allow : Bool) (pages : List PageData) :
    (extractPdfToRecords allow pages).length = pages.length ∧
    (extractPdfToRecords allow pages).map (fun r => r.page) = List.range' 1 pages.length ∧
    ∀ r ∈ extractPdfToRecords allow pages, r.char_len = r.text.length :=
  ⟨extractPages_length allow pages 0 1,
   extractPages_page_numbers allow pages 0 1,
   fun r h => extractPages_char_len allow pages 0 1 r h⟩

/-- Closed instance of `one_record_per_page` on a concrete one-page
document. -/
theorem one_record_per_page_witness :
    ({ page := 1, text := "hello", is_ocr := true, char_len := 5 } : PageRecord).char_len =
      ({ page := 1, text := "hello", is_ocr := true, char_len := 5 } : PageRecord).text.length :=
  (one_record_per_page true [pageHello]).2.2 _ (by decide)

/-! ### splitlines / join round-trip lemmas -/

theorem splitlines_crlf (cs : List Char) :
    splitlinesCh ('\r' :: '\n' :: cs) = "" :: splitlinesCh cs := by
  rw [splitlinesCh]
  simp

theorem splitlines_cons_break (c : Char) (cs : List Char)
    (hc : isLineBreakChar c = true) (hr : c ≠ '\r') :
    splitlinesCh (c :: cs) = "" :: splitlinesCh cs := by
  cases cs with
  | nil => simp [splitlinesCh, hc]
  | cons c2 cs' =>
    rw [splitlinesCh, if_neg (by intro h; exact hr h.1), if_pos hc]

theorem splitlines_cons_plain (c : Char) (cs : List Char)
    (hc : isLineBreakChar c = false) :
    splitlinesCh (c :: cs) = consLine c (splitlinesCh cs) := by
  have hr : c ≠ '\r' := by
    intro h
    rw [h] at hc
    simp [isLineBreakChar] at hc
  cases cs with
  | nil => simp [splitlinesCh, hc, consLine]
  | cons c2 cs' =>
    rw [splitlinesCh, if_neg (by intro h; exact hr h.1), if_neg (by simp [hc])]

/-- Every line produced by `splitlinesCh` is free of line-break
characters. -/
theorem splitlines_break_free (cs : List Char) :
    ∀ l ∈ splitlinesCh cs, ∀ c ∈ l.data, isLineBreakChar c = false := by
  induction cs using splitlinesCh.induct with
  | case1 => simp [splitlinesCh]
  | case2 c hb =>
    intro l hl ch hch
    rw [splitlinesCh, if_pos hb] at hl
    simp at hl
    subst hl
    simp at hch
  | case3 c hb =>
    intro l hl ch hch
    rw [splitlinesCh, if_neg hb] at hl
    simp at hl
    subst hl
    simp at hch
    subst hch
    simpa using hb
  | case4 c c2 cs hpair ih =>
    intro l hl ch hch
    rw [splitlinesCh, if_pos hpair] at hl
    rcases List.mem_cons.mp hl with h | h
    · subst h; simp at hch
    · exact ih l h ch hch
  | case5 c c2 cs hpair hbrk ih =>
    intro l hl ch hch
    rw [splitlinesCh, if_neg hpair, if_pos hbrk] at hl
    rcases List.mem_cons.mp hl with h | h
    · subst h; simp at hch
    · exact ih l h ch hch
  | case6 c c2 cs hpair hbrk ih =>
    intro l hl ch hch
    rw [splitlinesCh, if_neg hpair, if_neg hbrk] at hl
    rcases hsp : splitlinesCh (c2 :: cs) with _ | ⟨l0, ls⟩
    · rw [hsp] at hl
      simp [consLine] at hl
      subst hl
      simp at hch
      subst hch
      simpa using hbrk
    · rw [hsp] at hl
      rw [consLine] at hl
      rcases List.mem_cons.mp hl with h | h
      · subst h
        simp at hch
        rcases hch with h | h
        · subst h; simpa using hbrk
        · exact ih l0 (hsp ▸ List.mem_cons_self l0 ls) ch h
      · exact ih l (hsp ▸ List.mem_cons_of_mem l0 h) ch hch

/-- A non-empty break-free character list splits into the single line it
spells. -/
theorem splitlines_no_break (cs : List Char) (hne : cs ≠ [])
    (h : ∀ c ∈ cs, isLineBreakChar c = false) :
    splitlinesCh cs = [String.mk cs] := by
  induction cs with
  | nil => exact absurd rfl hne
  | cons c cs ih =>
    have hc : isLineBreakChar c = false := h c (List.mem_cons_self c cs)
    rw [splitlines_cons_plain c cs hc]
    cases cs with
    | nil => rfl
    | cons c2 cs' =>
      rw [ih (by simp) (fun x hx => h x (List.mem_cons_of_mem c hx))]
      rfl

/-- Splitting `cs ++ '\n' :: ds` for break-free `cs` yields the line
spelled by `cs` followed by the lines of `ds`. -/
theorem splitlines_append_newline (cs : List Char) (ds : List Char)
    (h : ∀ c ∈ cs, isLineBreakChar c = false) :
    splitlinesCh (cs ++ '\n' :: ds) = String.mk cs :: splitlinesCh ds := by
  induction cs with
  | nil =>
    rw [List.nil_append]
    rw [splitlines_cons_break '\n' ds (by decide) (by decide)]
  | cons c cs ih =>
    have hc : isLineBreakChar c = false := h c (List.mem_cons_self c cs)
    rw [List.cons_append, splitlines_cons_plain c _ hc]
    rw [ih (fun x hx => h x (List.mem_cons_of_mem c hx))]
    rfl

/-- For a break-free line list not ending in an empty line, splitting the
newline-join recovers the list. -/
theorem splitlines_join (L : List String)
    (hbf : ∀ l ∈ L, ∀ c ∈ l.data, isLineBreakChar c = false)
    (hne : L ≠ []) (hlast : L.getLast? ≠ some "") :
    splitlinesCh (pyJoin "\n" L).data = L := by
  induction L with
  | nil => exact absurd rfl hne
  | cons l L' ih =>
    cases L' with
    | nil =>
      have hl : l ≠ "" := by
        intro h
        exact hlast (by rw [h]; rfl)
      have hdata : l.data ≠ [] := fun hd => hl (by cases l; simp_all)
      rw [pyJoin]
      rw [splitlines_no_break l.data hdata (hbf l (List.mem_cons_self l []))]
    | cons l2 L'' =>
      rw [pyJoin]
      have hdata : (l ++ "\n" ++ pyJoin "\n" (l2 :: L'')).data =
          l.data ++ '\n' :: (pyJoin "\n" (l2 :: L'')).data := by
        rw [String.data_append, String.data_append]
        simp
      rw [hdata]
      rw [splitlines_append_newline l.data _ (hbf l (List.mem_cons_self l _))]
      rw [ih (fun x hx => hbf x (List.mem_cons_of_mem l hx)) (by simp)
            (fun hx => hlast (by rw [List.getLast?_cons_cons]; exact hx))]

/-! ### Idempotence of the per-line cleaning pass -/

/-- A line stripping to empty never matches the bare-enumerator regex. -/
theorem strip_empty_not_bare (l : String) (h : pyStrip l = "") :
    isBareEnum l = false := by
  unfold isBareEnum
  rw [h]
  decide

theorem cleanLines_cons_plain (l : String) (rest : List String)
    (hb : isBareEnum l = false) :
    cleanLines (l :: rest) = l :: cleanLines rest := by
  rw [cleanLines, hb]
  simp

theorem cleanLines_cons_bare_none (l : String) (rest : List String)
    (hb : isBareEnum l = true) (hf : firstNonempty rest = none) :
    cleanLines (l :: rest) = cleanLines rest := by
  rw [cleanLines, if_pos hb, hf]

theorem cleanLines_cons_bare_bare (l : String) (rest : List String) (z : String)
    (hb : isBareEnum l = true) (hf : firstNonempty rest = some z)
    (hz : isBareEnum z = true) :
    cleanLines (l :: rest) = cleanLines rest := by
  rw [cleanLines, if_pos hb, hf]
  dsimp only
  rw [if_pos hz]

theorem cleanLines_cons_bare_keep (l : String) (rest : List String) (z : String)
    (hb : isBareEnum l = true) (hf : firstNonempty rest = some z)
    (hz : isBareEnum z = false) :
    cleanLines (l :: rest) = l :: cleanLines rest := by
  rw [cleanLines, if_pos hb, hf]
  dsimp only
  rw [hz]
  simp

/-- A list with no non-empty line is left untouched by the cleaner. -/
theorem cleanLines_all_blank : ∀ (ls : List String),
    firstNonempty ls = none → cleanLines ls = ls := by
  intro ls
  induction ls with
  | nil => intro _; rfl
  | cons l rest ih =>
    intro h
    rw [firstNonempty] at h
    by_cases hl : pyStrip l = ""
    · rw [if_pos hl] at h
      rw [cleanLines_cons_plain l rest (strip_empty_not_bare l hl), ih h]
    · rw [if_neg hl] at h
      simp at h

/-- The first non-empty line survives the cleaner whenever it is not a
bare enumerator, and stays first. -/
theorem firstNonempty_cleanLines (ls : List String) (z : String)
    (hz : firstNonempty ls = some z) (hnb : isBareEnum z = false) :
    firstNonempty (cleanLines ls) = some z := by
  induction ls with
  | nil => simp [firstNonempty] at hz
  | cons l rest ih =>
    rw [firstNonempty] at hz
    by_cases hl : pyStrip l = ""
    · rw [if_pos hl] at hz
      rw [cleanLines_cons_plain l rest (strip_empty_not_bare l hl)]
      rw [firstNonempty, if_pos hl]
      exact ih hz
    · rw [if_neg hl] at hz
      have hlz : l = z := by simpa using hz
      subst hlz
      rw [cleanLines_cons_plain l rest hnb]
      rw [firstNonempty, if_neg hl]

/-- The cleaning pass is idempotent at the line-list level. -/
theorem cleanLines_idem : ∀ (ls : List String),
    cleanLines (cleanLines ls) = cleanLines ls := by
  intro ls
  induction ls with
  | nil => rfl
  | cons l rest ih =>
    by_cases hb : isBareEnum l = true
    · cases hf : firstNonempty rest with
      | none =>
        rw [cleanLines_cons_bare_none l rest hb hf]
        exact ih
      | some z =>
        by_cases hz : isBareEnum z = true
        · rw [cleanLines_cons_bare_bare l rest z hb hf hz]
          exact ih
        · have hz' : isBareEnum z = false := by simpa using hz
          rw [cleanLines_cons_bare_keep l rest z hb hf hz']
          rw [cleanLines_cons_bare_keep l (cleanLines rest) z hb
                (firstNonempty_cleanLines rest z hf hz') hz', ih]
    · have hb' : isBareEnum l = false := by simpa using hb
      rw [cleanLines_cons_plain l rest hb', cleanLines_cons_plain l (cleanLines rest) hb', ih]

/-- Cleaning only removes lines: the output lines all come from the
input. -/
theorem cleanLines_subset : ∀ (ls : List String) (l : String),
    l ∈ cleanLines ls → l ∈ ls := by
  intro ls
  induction ls with
  | nil => intro l h; exact h
  | cons x rest ih =>
    intro l h
    by_cases hb : isBareEnum x = true
    · cases hf : firstNonempty rest with
      | none =>
        rw [cleanLines_cons_bare_none x rest hb hf] at h
        exact List.mem_cons_of_mem x (ih l h)
      | some z =>
        by_cases hz : isBareEnum z = true
        · rw [cleanLines_cons_bare_bare x rest z hb hf hz] at h
          exact List.mem_cons_of_mem x (ih l h)
        · rw [cleanLines_cons_bare_keep x rest z hb hf (by simpa using hz)] at h
          rcases List.mem_cons.mp h with h | h
          · exact h ▸ List.mem_cons_self x rest
          · exact List.mem_cons_of_mem x (ih l h)
    · rw [cleanLines_cons_plain x rest (by simpa using hb)] at h
      rcases List.mem_cons.mp h with h | h
      · exact h ▸ List.mem_cons_self x rest
      · exact List.mem_cons_of_mem x (ih l h)

/-- A line list of length at least two ending in an empty line joins to a
string ending in a newline character. -/
theorem join_last_blank : ∀ (L : List String), 2 ≤ L.length →
    L.getLast? = some "" → (pyJoin "\n" L).data.getLast? = some '\n' := by
  intro L
  induction L with
  | nil => intro h _; simp at h
  | cons l L' ih =>
    intro hlen hlast
    cases L' with
    | nil => simp at hlen
    | cons l2 L'' =>
      rw [pyJoin]
      cases L'' with
      | nil =>
        have hl2 : l2 = "" := by simpa using hlast
        subst hl2
        show ((l.data ++ ['\n']) ++ []).getLast? = some '\n'
        rw [List.append_nil]
        rw [List.getLast?_append_of_ne_nil _ (by simp)]
        rfl
      | cons l3 L3 =>
        have hrec : (pyJoin "\n" (l2 :: l3 :: L3)).data.getLast? = some '\n' := by
          apply ih (by simp)
          rw [List.getLast?_cons_cons] at hlast
          exact hlast
        have hne : (pyJoin "\n" (l2 :: l3 :: L3)).data ≠ [] := by
          intro h
          rw [h] at hrec
          simp at hrec
        rw [String.data_append]
        rw [List.getLast?_append_of_ne_nil _ hne]
        exact hrec

/-- C10 counterexample: `remove_orphan_enumerators` is not idempotent;
on "\n\n" (two blank lines) the first pass returns "\n" and a second pass
collapses it to "". -/
theorem orphan_cleaner_not_idempotent :
    removeOrphanEnumerators (removeOrphanEnumerators "\n\n") ≠
      removeOrphanEnumerators "\n\n" := by decide

/-- C10 (amended): the cleaner is idempotent on every input whose output
does not end in a newline character; trailing newlines are the only
exception, because `splitlines` swallows one final empty line at each
pass. -/
theorem orphan_cleaner_conditional_idem (x : String)
    (h : (removeOrphanEnumerators x).data.getLast? ≠ some '\n') :
    removeOrphanEnumerators (removeOrphanEnumerators x) =
      removeOrphanEnumerators x := by
  unfold removeOrphanEnumerators pySplitlines at *
  have hbf : ∀ l ∈ cleanLines (splitlinesCh x.data), ∀ c ∈ l.data,
      isLineBreakChar c = false :=
    fun l hl => splitlines_break_free x.data l (cleanLines_subset _ l hl)
  rcases hcs : cleanLines (splitlinesCh x.data) with _ | ⟨l0, L'⟩
  · rfl
  · rw [hcs] at h hbf
    by_cases hlast : (l0 :: L').getLast? = some ""
    · cases L' with
      | nil =>
        have hl0 : l0 = "" := by simpa using hlast
        subst hl0
        rfl
      | cons l1 L'' =>
        exact absurd (join_last_blank (l0 :: l1 :: L'') (by simp) hlast) h
    · rw [splitlines_join (l0 :: L') hbf (by simp) hlast, ← hcs, cleanLines_idem]

/-- Closed instance of `orphan_cleaner_conditional_idem` on "a\nb". -/
theorem orphan_cleaner_conditional_idem_witness :
    removeOrphanEnumerators (removeOrphanEnumerators "a\nb") =
      removeOrphanEnumerators "a\nb" :=
  orphan_cleaner_conditional_idem "a\nb" (by decide)

end PdfExtract
